import Mathlib

/-!
Shallow embedding of the memory compression engine in
`src/memory/memory_compression.py`.

Modelling conventions:
* Python `str` is modelled as `List Char` (`Str` below); string literals are
  written through `str`, which unfolds to the character list.
* Python `float` is modelled as `ℚ` (exact arithmetic).
* The mutable `MemoryCompressor` object is modelled as an explicit state
  record; `datetime.now()` / `time.time()` are threaded as an explicit
  rational timestamp parameter, and the content-hash id generator as an
  explicit id parameter.
-/

abbrev Str := List Char

def str (s : String) : Str := s.data

/-- ASCII whitespace, as recognised by Python `str.strip` and regex `\s`. -/
def isPySpace (c : Char) : Bool :=
  c == ' ' || c == '\t' || c == '\n' || c == '\r' || c == Char.ofNat 11 || c == Char.ofNat 12

/-- Regex `\w`: `[a-zA-Z0-9_]`. -/
def isWordChar (c : Char) : Bool := c.isAlpha || c.isDigit || c == '_'

/-- Python `str.strip()`. -/
def pyStrip (s : Str) : Str := ((s.dropWhile isPySpace).reverse.dropWhile isPySpace).reverse

/-- Python `str.lower()`. -/
def strToLower (s : Str) : Str := s.map Char.toLower

/-- `startsWith s pat`: `pat` is a prefix of `s`. -/
def startsWith : Str → Str → Bool
  | _, [] => true
  | [], _ :: _ => false
  | a :: as, b :: bs => a == b && startsWith as bs

/-- Python `pat in s` (substring containment). -/
def strContains : Str → Str → Bool
  | [], pat => startsWith [] pat
  | c :: rest, pat => startsWith (c :: rest) pat || strContains rest pat

def containsAny (s : Str) (kws : List Str) : Bool := kws.any (fun k => strContains s k)

/-- Python `s.split(sep)` for a one-character separator. -/
def splitOnChar (sep : Char) : Str → List Str
  | [] => [[]]
  | c :: rest =>
    if c == sep then [] :: splitOnChar sep rest
    else
      match splitOnChar sep rest with
      | [] => [[c]]
      | piece :: pieces => (c :: piece) :: pieces

/-- Python `sep.join(pieces)`. -/
def joinSep (sep : Str) : List Str → Str
  | [] => []
  | [x] => x
  | x :: xs => x ++ sep ++ joinSep sep xs

/-- Decimal digits of a positive number, least significant first (with fuel). -/
def natDigitsAux : ℕ → ℕ → List ℕ
  | 0, _ => []
  | _ + 1, 0 => []
  | fuel + 1, n + 1 => ((n + 1) % 10) :: natDigitsAux fuel ((n + 1) / 10)

/-- Python `str(n)` / f-string rendering of a natural number. -/
def natToChars (n : ℕ) : Str :=
  if n == 0 then ['0'] else ((natDigitsAux n n).map (fun d => Char.ofNat (48 + d))).reverse

/-! ### Compression strategies (`_compress_*` in the source) -/

def important_words : List Str :=
  [str "understand", str "need", str "should", str "must",
   str "important", str "key", str "solution", str "problem"]

/-- `MemoryCompressor._compress_conversation`. -/
def _compress_conversation (content : Str) : Str :=
  let sentences := splitOnChar '.' content
  let key_sentences := (sentences.map pyStrip).filter (fun sentence =>
    decide (10 < sentence.length) && containsAny (strToLower sentence) important_words)
  let compressed :=
    if 10 < sentences.length then
      sentences.take 3 ++ [str "[...]"] ++ key_sentences ++ [str "[...]"]
        ++ sentences.drop (sentences.length - 3)
    else sentences
  joinSep (str ". ") compressed

/-- Regex fragment `\s+\w+` anchored at the start of the string. -/
def reSpacesWordAux : Str → Bool
  | [] => false
  | c :: rest => if isPySpace c then reSpacesWordAux rest else isWordChar c

def reSpacesWord : Str → Bool
  | [] => false
  | c :: rest => isPySpace c && reSpacesWordAux rest

/-- `re.match` of `lit` followed by `\s+\w+`. -/
def matchKwSpacesWord (lit : Str) (line : Str) : Bool :=
  startsWith line lit && reSpacesWord (line.drop lit.length)

/-- `^(import|from)\s+\w+`. -/
def code_pattern_import (line : Str) : Bool :=
  matchKwSpacesWord (str "import") line || matchKwSpacesWord (str "from") line

/-- `^def\s+\w+`. -/
def code_pattern_function_def (line : Str) : Bool := matchKwSpacesWord (str "def") line

/-- `^class\s+\w+`. -/
def code_pattern_class_def (line : Str) : Bool := matchKwSpacesWord (str "class") line

/-- `^\w+\s*=\s*`. -/
def code_pattern_variable_assignment (line : Str) : Bool :=
  let w := line.takeWhile isWordChar
  decide (0 < w.length) &&
    (match (line.drop w.length).dropWhile isPySpace with
     | '=' :: _ => true
     | _ => false)

/-- `line \d+` anchored at the start of the string. -/
def lineNumAt (s : Str) : Bool :=
  startsWith s (str "line ") &&
    (match s.drop 5 with
     | c :: _ => c.isDigit
     | [] => false)

/-- `.*line \d+`: some position matches `lineNumAt`. -/
def containsLineNum : Str → Bool
  | [] => false
  | c :: rest => lineNumAt (c :: rest) || containsLineNum rest

/-- `.*".*line \d+`: a quote character followed somewhere by `line \d+`. -/
def quoteThenLineNum : Str → Bool
  | [] => false
  | c :: rest => (c == '"' && containsLineNum rest) || quoteThenLineNum rest

/-- `File ".*".*line \d+` anchored at the start of the line. -/
def matchFileRef (line : Str) : Bool :=
  startsWith line (str "File \"") && quoteThenLineNum (line.drop 6)

/-- `Traceback.*Error:|File ".*".*line \d+` under `re.match`. -/
def code_pattern_error_traceback (line : Str) : Bool :=
  (startsWith line (str "Traceback") && strContains (line.drop 9) (str "Error:"))
  || matchFileRef line

/-- `(PASSED|FAILED|ERROR|SKIPPED)` under `re.match`. -/
def code_pattern_test_result (line : Str) : Bool :=
  startsWith line (str "PASSED") || startsWith line (str "FAILED")
  || startsWith line (str "ERROR") || startsWith line (str "SKIPPED")

/-- A stripped line matches one of the entries of `self.code_patterns`. -/
def matchesCodePattern (line : Str) : Bool :=
  code_pattern_import line || code_pattern_function_def line || code_pattern_class_def line
  || code_pattern_variable_assignment line || code_pattern_error_traceback line
  || code_pattern_test_result line

/-- `MemoryCompressor._compress_code`. -/
def _compress_code (code : Str) : Str :=
  let lines := splitOnChar '\n' code
  let compressed_lines := (lines.map pyStrip).filter (fun line =>
    !(line == []) && !(startsWith line (str "#")) && matchesCodePattern line)
  let compressed_lines2 :=
    if compressed_lines.length * 2 < lines.length then
      (str "# Code compressed: " ++ natToChars lines.length ++ str " -> "
        ++ natToChars compressed_lines.length ++ str " lines") :: compressed_lines
    else compressed_lines
  joinSep ['\n'] compressed_lines2

/-- `[a-z]*Error:` where the lowercase run is followed by the literal. -/
def lowerThenErrorAux : Str → Bool
  | [] => false
  | c :: rest => if c.isLower then lowerThenErrorAux rest else startsWith (c :: rest) (str "Error:")

/-- `[a-z]+Error:` anchored at the start of the string. -/
def lowerRunThenErrorColon : Str → Bool
  | [] => false
  | c :: rest => c.isLower && lowerThenErrorAux rest

/-- `re.search(r'[A-Z][a-z]+Error:', s)`. -/
def reUpperError : Str → Bool
  | [] => false
  | c :: rest => (c.isUpper && lowerRunThenErrorColon rest) || reUpperError rest

/-- The retention test applied to a stripped line in `_compress_error`. -/
def errorLineQualifies (line : Str) : Bool :=
  containsAny (strToLower line)
    [str "error:", str "exception:", str "traceback", str "file \"", str "line"]
  || reUpperError line

/-- The stripped lines of `_compress_error` that pass the retention test. -/
def errorKeyLines (error_content : Str) : List Str :=
  ((splitOnChar '\n' error_content).map pyStrip).filter errorLineQualifies

/-- `MemoryCompressor._compress_error`. -/
def _compress_error (error_content : Str) : Str :=
  let key_lines := errorKeyLines error_content
  let key_lines2 :=
    if 20 < key_lines.length then
      key_lines.take 10
        ++ [str "[... " ++ natToChars (key_lines.length - 20) ++ str " more error lines ...]"]
        ++ key_lines.drop (key_lines.length - 10)
    else key_lines
  if key_lines2 == [] then error_content.take 500 ++ str "..." else joinSep ['\n'] key_lines2

/-- `^\d+\.|^[-*+]\s` under `re.match`. -/
def solStepPattern (line : Str) : Bool :=
  (decide (0 < (line.takeWhile Char.isDigit).length) &&
    (match line.drop (line.takeWhile Char.isDigit).length with
     | '.' :: _ => true
     | _ => false))
  || (match line with
      | c :: d :: _ => (c == '-' || c == '*' || c == '+') && isPySpace d
      | _ => false)

def action_words : List Str :=
  [str "step", str "solution", str "fix", str "implement", str "change", str "add", str "remove"]

/-- The retention test applied to a stripped line in `_compress_solution`. -/
def solutionLineQualifies (line : Str) : Bool :=
  solStepPattern line || containsAny (strToLower line) action_words

/-- `MemoryCompressor._compress_solution`. -/
def _compress_solution (solution : Str) : Str :=
  let lines := splitOnChar '\n' solution
  let key_steps := (lines.map pyStrip).filter solutionLineQualifies
  let compressed :=
    if key_steps.length * 2 < lines.length then
      lines.take 2 ++ key_steps ++ lines.drop (lines.length - 2)
    else key_steps
  joinSep ['\n'] compressed

/-- `MemoryCompressor._compress_generic`. -/
def _compress_generic (content : Str) : Str :=
  if 500 < content.length then
    content.take 250 ++ str "\n[... compressed ...]\n" ++ content.drop (content.length - 250)
  else content

/-- `MemoryCompressor._compress_by_type`. -/
def _compress_by_type (content : Str) (memory_type : Str) : Str :=
  if memory_type == str "conversation" then _compress_conversation content
  else if memory_type == str "code" then _compress_code content
  else if memory_type == str "error" then _compress_error content
  else if memory_type == str "solution" then _compress_solution content
  else _compress_generic content

/-! ### Scoring engine (`_calculate_importance`, `_calculate_code_complexity`) -/

def error_keywords : List Str :=
  [str "error", str "exception", str "failed", str "traceback", str "bug", str "fix"]

/-- `sum(1 for keyword in error_keywords if keyword.lower() in content.lower())`. -/
def countErrorKeywords (content : Str) : ℕ :=
  (error_keywords.filter (fun k => strContains (strToLower content) (strToLower k))).length

/-- `re.match` of `lit` followed by `\s+\w+`, returning the consumed length. -/
def matchKwSpacesWordLen (lit : Str) (s : Str) : Option ℕ :=
  if startsWith s lit then
    let rest := s.drop lit.length
    let sp := rest.takeWhile isPySpace
    if sp.length == 0 then none
    else
      let w := (rest.drop sp.length).takeWhile isWordChar
      if w.length == 0 then none else some (lit.length + sp.length + w.length)
  else none

/-- `lit\s+.*:` (greedy `.*` stops at the last `:` before a newline). -/
def matchKwSpacesToColon (lit : Str) (s : Str) : Option ℕ :=
  if startsWith s lit then
    let rest := s.drop lit.length
    let sp := rest.takeWhile isPySpace
    if sp.length == 0 then none
    else
      let seg := (rest.drop sp.length).takeWhile (fun c => !(c == '\n'))
      match ((List.range seg.length).filter (fun i => seg.getD i ' ' == ':')).getLast? with
      | some i => some (lit.length + sp.length + i + 1)
      | none => none
  else none

/-- A literal pattern such as `try:`. -/
def matchLit (lit : Str) (s : Str) : Option ℕ :=
  if startsWith s lit then some lit.length else none

/-- `#.*TODO|FIXME|NOTE` (alternation binds the whole branches). -/
def matchHashTodoEtc (s : Str) : Option ℕ :=
  (match s with
   | '#' :: rest =>
       let seg := rest.takeWhile (fun c => !(c == '\n'))
       (((List.range seg.length).filter
           (fun i => startsWith (seg.drop i) (str "TODO"))).getLast?).map (fun i => 1 + i + 4)
   | _ => none)
  <|> (if startsWith s (str "FIXME") then some 5
       else if startsWith s (str "NOTE") then some 4 else none)

/-- Non-overlapping `re.findall` match count, scanning left to right (with fuel). -/
def countMatchesAux (m : Str → Option ℕ) : ℕ → Str → ℕ
  | 0, _ => 0
  | _ + 1, [] => 0
  | fuel + 1, c :: rest =>
    match m (c :: rest) with
    | some n => 1 + countMatchesAux m fuel ((c :: rest).drop (max n 1))
    | none => countMatchesAux m fuel rest

def countMatches (m : Str → Option ℕ) (s : Str) : ℕ := countMatchesAux m s.length s

/-- The `complexity_indicators` table of `_calculate_code_complexity`. -/
def complexity_indicators : List ((Str → Option ℕ) × ℚ) :=
  [(matchKwSpacesWordLen (str "def"), 0.1),
   (matchKwSpacesWordLen (str "class"), 0.15),
   (matchKwSpacesToColon (str "if"), 0.05),
   (matchKwSpacesToColon (str "for"), 0.05),
   (matchKwSpacesToColon (str "while"), 0.05),
   (matchLit (str "try:"), 0.1),
   (matchKwSpacesWordLen (str "import"), 0.02),
   (matchHashTodoEtc, 0.1)]

/-- `MemoryCompressor._calculate_code_complexity`. -/
def _calculate_code_complexity (code : Str) : ℚ :=
  min ((complexity_indicators.map
    (fun pw => min ((countMatches pw.1 code : ℚ) * pw.2) 0.5)).sum) 1

/-- The caller-supplied `context` dict: only the `relevance` key is ever read,
so values are modelled as rationals. -/
abbrev Ctx := List (Str × ℚ)

/-- `context and 'relevance' in context` followed by `context['relevance']`. -/
def ctxRelevance (context : Option Ctx) : Option ℚ :=
  match context with
  | none => none
  | some d => if d.isEmpty then none else d.lookup (str "relevance")

/-- `MemoryCompressor._calculate_importance`. -/
def _calculate_importance (content : Str) (memory_type : Str) (context : Option Ctx) : ℚ :=
  let length_score : ℚ := min ((content.length : ℚ) / 1000) 1
  let factors1 : List ℚ := [length_score * 0.2]
  let error_score : ℚ := (countErrorKeywords content : ℚ) / (error_keywords.length : ℚ)
  let factors2 := factors1 ++ [min error_score 1 * 0.3]
  let factors3 :=
    if memory_type == str "code" then factors2 ++ [_calculate_code_complexity content * 0.2]
    else factors2
  let factors4 :=
    match ctxRelevance context with
    | some r => factors3 ++ [r * 0.2]
    | none => factors3
  (factors4 ++ [(0.1 : ℚ)]).sum

/-! ### Entity extraction (`_extract_entities`) -/

/-- `re.match` of `lit` then `\s+(\w+)`: consumed length and captured word. -/
def matchKwSpacesWordCap (lit : Str) (s : Str) : Option (ℕ × Str) :=
  if startsWith s lit then
    let rest := s.drop lit.length
    let sp := rest.takeWhile isPySpace
    if sp.length == 0 then none
    else
      let w := (rest.drop sp.length).takeWhile isWordChar
      if w.length == 0 then none else some (lit.length + sp.length + w.length, w)
  else none

/-- Non-overlapping `re.findall` with one capture group (with fuel). -/
def scanCapturesAux (m : Str → Option (ℕ × Str)) : ℕ → Str → List Str
  | 0, _ => []
  | _ + 1, [] => []
  | fuel + 1, c :: rest =>
    match m (c :: rest) with
    | some (n, cap) => cap :: scanCapturesAux m fuel ((c :: rest).drop (max n 1))
    | none => scanCapturesAux m fuel rest

def scanCaptures (m : Str → Option (ℕ × Str)) (s : Str) : List Str :=
  scanCapturesAux m s.length s

/-- `^(\w+)\s*=` applied at a line start. -/
def matchVarAtStart (s : Str) : Option (ℕ × Str) :=
  let w := s.takeWhile isWordChar
  if w.length == 0 then none
  else
    let sp := (s.drop w.length).takeWhile isPySpace
    match s.drop (w.length + sp.length) with
    | '=' :: _ => some (w.length + sp.length + 1, w)
    | _ => none

def skipToNextLine (s : Str) : Str := (s.dropWhile (fun c => !(c == '\n'))).drop 1

/-- `re.findall(r'^(\w+)\s*=', content, re.MULTILINE)`: one try per line start. -/
def varScanAux : ℕ → Str → List Str
  | 0, _ => []
  | _ + 1, [] => []
  | fuel + 1, c :: rest =>
    match matchVarAtStart (c :: rest) with
    | some (n, w) => w :: varScanAux fuel (skipToNextLine ((c :: rest).drop n))
    | none => varScanAux fuel (skipToNextLine (c :: rest))

def varScan (content : Str) : List Str := varScanAux content.length content

/-- `([A-Z][a-zA-Z]*Error)` with a greedy star. -/
def matchUpperErrorCap (s : Str) : Option (ℕ × Str) :=
  match s with
  | c :: rest =>
    if c.isUpper then
      let run := rest.takeWhile (fun ch => ch.isAlpha)
      match ((List.range (run.length + 1)).filter
          (fun k => decide (k + 5 ≤ run.length) && (run.drop k).take 5 == str "Error")).getLast? with
      | some k => some (1 + k + 5, c :: run.take (k + 5))
      | none => none
    else none
  | [] => none

/-- `File "([^"]+)"`. -/
def matchFileCap (s : Str) : Option (ℕ × Str) :=
  if startsWith s (str "File \"") then
    let rest := s.drop 6
    let run := rest.takeWhile (fun ch => !(ch == '"'))
    if run.length == 0 then none
    else if run.length < rest.length then some (6 + run.length + 1, run) else none
  else none

/-- `"([^"]+)"`. -/
def matchQuotedCap (s : Str) : Option (ℕ × Str) :=
  match s with
  | '"' :: rest =>
    let run := rest.takeWhile (fun ch => !(ch == '"'))
    if run.length == 0 then none
    else if run.length < rest.length then some (1 + run.length + 1, run) else none
  | _ => none

def backtickChar : Char := Char.ofNat 96

/-- The code-span pattern over backtick delimiters. -/
def matchBacktickCap (s : Str) : Option (ℕ × Str) :=
  match s with
  | c :: rest =>
    if c == backtickChar then
      let run := rest.takeWhile (fun ch => !(ch == backtickChar))
      if run.length == 0 then none
      else if run.length < rest.length then some (1 + run.length + 1, run) else none
    else none
  | [] => none

/-- `\b[A-Z][a-zA-Z]+\b`, scanning with the previous character for the boundary. -/
def techTermsAux : ℕ → Option Char → Str → List Str
  | 0, _, _ => []
  | _ + 1, _, [] => []
  | fuel + 1, prev, c :: rest =>
    let boundaryOk := match prev with | none => true | some p => !(isWordChar p)
    if boundaryOk && c.isUpper then
      let run := rest.takeWhile (fun ch => ch.isAlpha)
      if decide (0 < run.length) &&
          (decide (run.length = rest.length) || !(isWordChar (rest.getD run.length ' '))) then
        (c :: run) :: techTermsAux fuel (some (run.getLastD c)) (rest.drop run.length)
      else techTermsAux fuel (some c) rest
    else techTermsAux fuel (some c) rest

def techTerms (s : Str) : List Str := techTermsAux s.length none s

/-- `MemoryCompressor._extract_entities`. `list(set(entities))` iterates a
Python set in unspecified order; it is modelled as first-occurrence
deduplication. -/
def _extract_entities (content : Str) (memory_type : Str) : List Str :=
  let entities :=
    if memory_type == str "code" then
      (scanCaptures (matchKwSpacesWordCap (str "def")) content).map (fun m => str "function:" ++ m)
      ++ (scanCaptures (matchKwSpacesWordCap (str "class")) content).map (fun m => str "class:" ++ m)
      ++ (varScan content).map (fun m => str "variable:" ++ m)
      ++ (scanCaptures (matchKwSpacesWordCap (str "import")) content).map (fun m => str "module:" ++ m)
    else if memory_type == str "error" then
      scanCaptures matchUpperErrorCap content
      ++ (scanCaptures matchFileCap content).map (fun m => str "file:" ++ m)
    else
      scanCaptures matchQuotedCap content ++ scanCaptures matchBacktickCap content
      ++ (techTerms content).take 10
  entities.dedup.take 20

/-! ### Data model and store -/

structure CompressedMemory where
  memory_id : Str
  timestamp : ℚ
  memory_type : Str
  original_content : Str
  compressed_content : Str
  key_entities : List Str
  importance_score : ℚ
  compression_ratio : ℚ
  metadata : Ctx
deriving DecidableEq

structure MemorySummary where
  summary_id : Str
  timestamp : ℚ
  summary_type : Str
  key_points : List Str
  entities : List Str
  patterns : List Str
  decisions : List Str
  compressed_memories : List Str
deriving DecidableEq

/-- The state of a `MemoryCompressor` object. The `datetime.now().isoformat()`
timestamp stored on an entry is modelled directly as the epoch-seconds value
that `_cleanup_old_memories` parses back out of it. -/
structure MemoryCompressor where
  max_memory_size : ℕ
  compression_threshold : ℚ
  importance_threshold : ℚ
  compressed_memories : List (Str × CompressedMemory)
  memory_summaries : List (Str × MemorySummary)
  recent_memories : List Str
  total_original_size : ℤ
  total_compressed_size : ℤ
  compression_count : ℕ
deriving DecidableEq

/-- `MemoryCompressor.__init__` with the default arguments. -/
def initMemoryCompressor : MemoryCompressor :=
  { max_memory_size := 1000, compression_threshold := 0.7, importance_threshold := 0.5,
    compressed_memories := [], memory_summaries := [], recent_memories := [],
    total_original_size := 0, total_compressed_size := 0, compression_count := 0 }

/-- `len(compressed_content) / len(content) if content else 1.0`. -/
def compression_ratio_calc (content compressed_content : Str) : ℚ :=
  if content == [] then 1 else (compressed_content.length : ℚ) / (content.length : ℚ)

/-- The `CompressedMemory` record built inside `compress_memory`; the memory
id (an md5-plus-clock value in the source) and the creation time are passed in
as oracle inputs. -/
def mkEntry (content memory_type : Str) (context : Option Ctx) (now : ℚ) (memory_id : Str) :
    CompressedMemory :=
  { memory_id := memory_id
    timestamp := now
    memory_type := memory_type
    original_content := content
    compressed_content := _compress_by_type content memory_type
    key_entities := _extract_entities content memory_type
    importance_score := _calculate_importance content memory_type context
    compression_ratio := compression_ratio_calc content (_compress_by_type content memory_type)
    metadata := context.getD [] }

/-- Python dict assignment `d[k] = v`: replace in place or append. -/
def dictInsert (k : Str) (v : CompressedMemory) (l : List (Str × CompressedMemory)) :
    List (Str × CompressedMemory) :=
  if l.any (fun p => p.1 == k) then l.map (fun p => if p.1 == k then (k, v) else p)
  else l ++ [(k, v)]

/-- `deque(maxlen=100).append`. -/
def ringAppend (mid : Str) (ring : List Str) : List Str :=
  let r := ring ++ [mid]
  if 100 < r.length then r.drop (r.length - 100) else r

/-- The storage and statistics updates of `compress_memory` before the
cleanup check. -/
def insertStep (e : CompressedMemory) (s : MemoryCompressor) : MemoryCompressor :=
  { s with
      compressed_memories := dictInsert e.memory_id e s.compressed_memories
      recent_memories := ringAppend e.memory_id s.recent_memories
      total_original_size := s.total_original_size + e.original_content.length
      total_compressed_size := s.total_compressed_size + e.compressed_content.length
      compression_count := s.compression_count + 1 }

/-- `max(0, 1 - (current_time - memory_time) / (7 * 24 * 3600))`. -/
def recency_score (now : ℚ) (m : CompressedMemory) : ℚ :=
  max 0 (1 - (now - m.timestamp) / (7 * 24 * 3600))

/-- `memory.importance_score * 0.7 + recency_score * 0.3`. -/
def combined_score (now : ℚ) (m : CompressedMemory) : ℚ :=
  m.importance_score * 0.7 + recency_score now m * 0.3

/-- Lexicographic strict comparison of Python strings. -/
def strLtB : Str → Str → Bool
  | [], [] => false
  | [], _ :: _ => true
  | _ :: _, [] => false
  | a :: as, b :: bs => if a < b then true else if b < a then false else strLtB as bs

def strLeB (a b : Str) : Bool := !(strLtB b a)

/-- Python tuple comparison on `(combined_score, memory_id)` pairs. -/
def pairLe (a b : ℚ × Str) : Bool :=
  if a.1 < b.1 then true else if b.1 < a.1 then false else strLeB a.2 b.2

/-- The ids of the `size - max_size` lowest-scoring entries, in the order the
ascending sort of `_cleanup_old_memories` lists them. -/
def evictedIds (now : ℚ) (s : MemoryCompressor) : List Str :=
  let memories_with_scores := s.compressed_memories.map (fun p => (combined_score now p.2, p.1))
  let sorted := memories_with_scores.mergeSort pairLe
  (sorted.take (s.compressed_memories.length - s.max_memory_size)).map Prod.snd

/-- One iteration of the removal loop of `_cleanup_old_memories`. -/
def removeOne (s : MemoryCompressor) (mid : Str) : MemoryCompressor :=
  match s.compressed_memories.lookup mid with
  | some m =>
      { s with
          compressed_memories := s.compressed_memories.eraseP (fun p => p.1 == mid)
          total_original_size := s.total_original_size - m.original_content.length
          total_compressed_size := s.total_compressed_size - m.compressed_content.length }
  | none => s

/-- `MemoryCompressor._cleanup_old_memories`. -/
def _cleanup_old_memories (now : ℚ) (s : MemoryCompressor) : MemoryCompressor :=
  if s.compressed_memories.length ≤ s.max_memory_size then s
  else (evictedIds now s).foldl removeOne s

/-- `MemoryCompressor.compress_memory`: returns the new state and the id. -/
def compress_memory (content memory_type : Str) (context : Option Ctx) (now : ℚ)
    (memory_id : Str) (s : MemoryCompressor) : MemoryCompressor × Str :=
  let e := mkEntry content memory_type context now memory_id
  let s1 := insertStep e s
  let s2 :=
    if s1.max_memory_size < s1.compressed_memories.length then _cleanup_old_memories now s1
    else s1
  (s2, memory_id)

/-- `MemoryCompressor.get_memory`. -/
def get_memory (s : MemoryCompressor) (memory_id : Str) : Option CompressedMemory :=
  s.compressed_memories.lookup memory_id

/-- `MemoryCompressor.get_summary`. -/
def get_summary (s : MemoryCompressor) (summary_id : Str) : Option MemorySummary :=
  s.memory_summaries.lookup summary_id

/-- `reset_memory_compression`: the module rebinds its global to a freshly
constructed `MemoryCompressor()`. -/
def reset_memory_compression (_s : MemoryCompressor) : MemoryCompressor := initMemoryCompressor

/-! ### Search (`search_memories`) -/

/-- The content-hit test of `search_memories`. -/
def contentHit (query : Str) (m : CompressedMemory) : Bool :=
  strContains (strToLower m.compressed_content) (strToLower query)

/-- The entity-hit test of `search_memories` (the loop breaks at the first hit). -/
def entityHit (query : Str) (m : CompressedMemory) : Bool :=
  m.key_entities.any (fun e => strContains (strToLower e) (strToLower query))

/-- The per-entry score accumulated by `search_memories`. -/
def searchScore (query : Str) (m : CompressedMemory) : ℚ :=
  let s1 : ℚ := 0
  let s2 := if contentHit query m then s1 + 1 else s1
  let s3 := if entityHit query m then s2 + 0.5 else s2
  s3 + m.importance_score * 0.3

/-- `if memory_type and memory.memory_type != memory_type: continue`. -/
def typeMatches (memory_type : Option Str) (m : CompressedMemory) : Bool :=
  match memory_type with
  | none => true
  | some t => if t.isEmpty then true else m.memory_type == t

/-- The `(search_score, memory)` list built by `search_memories`, in store
iteration order. -/
def searchCandidates (s : MemoryCompressor) (query : Str) (memory_type : Option Str) :
    List (ℚ × CompressedMemory) :=
  (s.compressed_memories.map Prod.snd).filterMap (fun m =>
    if typeMatches memory_type m then
      if 0 < searchScore query m then some (searchScore query m, m) else none
    else none)

/-- `MemoryCompressor.search_memories`: stable descending sort by score,
truncation to `limit`, entries only. -/
def search_memories (s : MemoryCompressor) (query : Str) (memory_type : Option Str)
    (limit : ℕ) : List CompressedMemory :=
  ((((searchCandidates s query memory_type).mergeSort
      (fun a b => decide (b.1 ≤ a.1))).take limit).map Prod.snd)

/-! ### Concrete stores used by witnesses and counterexamples -/

/-- A generic entry with no occurrence of `zzz` anywhere. -/
def entryA : CompressedMemory :=
  { memory_id := str "mem_a", timestamp := 0, memory_type := str "generic",
    original_content := str "hello world", compressed_content := str "hello world",
    key_entities := [str "Hello"], importance_score := 0.1, compression_ratio := 1,
    metadata := [] }

/-- A non-empty store holding only `entryA`. -/
def storeA : MemoryCompressor :=
  { initMemoryCompressor with compressed_memories := [(str "mem_a", entryA)] }

/-- A summary stored before a reset. -/
def summB : MemorySummary :=
  { summary_id := str "sum_b", timestamp := 0, summary_type := str "session",
    key_points := [], entities := [], patterns := [], decisions := [],
    compressed_memories := [] }

/-- A store holding one summary. -/
def storeB : MemoryCompressor :=
  { initMemoryCompressor with memory_summaries := [(str "sum_b", summB)] }

/-- An empty store whose capacity is zero: the next insert overflows it. -/
def storeC : MemoryCompressor := { initMemoryCompressor with max_memory_size := 0 }

/-- A 25-line traceback-like text in which every line qualifies as an error line. -/
def c25text : Str := joinSep ['\n'] (List.replicate 25 (str "error: x"))

/-! ## Helper lemmas -/

theorem splitOnChar_ne_nil (sep : Char) (s : Str) : splitOnChar sep s ≠ [] := by
  induction s with
  | nil => simp [splitOnChar]
  | cons a rest ih =>
    simp only [splitOnChar]
    split
    · simp
    · cases h : splitOnChar sep rest with
      | nil => exact absurd h ih
      | cons p ps => simp

theorem splitOnChar_eq_single {sep : Char} {s x : Str}
    (h : splitOnChar sep s = [x]) : x = s := by
  induction s generalizing x with
  | nil =>
    simp only [splitOnChar] at h
    injection h with h1 h2
    exact h1.symm
  | cons a rest ih =>
    simp only [splitOnChar] at h
    split at h
    · injection h with h1 h2
      exact absurd h2 (splitOnChar_ne_nil sep rest)
    · cases hsp : splitOnChar sep rest with
      | nil => exact absurd hsp (splitOnChar_ne_nil sep rest)
      | cons piece pieces =>
        rw [hsp] at h
        injection h with h1 h2
        subst h2
        rw [← h1, ih hsp]

theorem not_mem_of_mem_splitOnChar {sep : Char} {s p : Str}
    (h : p ∈ splitOnChar sep s) : sep ∉ p := by
  induction s generalizing p with
  | nil =>
    simp only [splitOnChar, List.mem_singleton] at h
    subst h; simp
  | cons a rest ih =>
    simp only [splitOnChar] at h
    split at h
    case isTrue hac =>
      rcases List.mem_cons.mp h with rfl | h
      · simp
      · exact ih h
    case isFalse hac =>
      cases hsp : splitOnChar sep rest with
      | nil => exact absurd hsp (splitOnChar_ne_nil sep rest)
      | cons piece pieces =>
        rw [hsp] at h
        rcases List.mem_cons.mp h with rfl | h
        · intro hm
          rcases List.mem_cons.mp hm with hm | hm
          · exact hac (by simp [hm])
          · exact ih (hsp ▸ List.mem_cons_self piece pieces) hm
        · exact ih (hsp ▸ List.mem_cons_of_mem piece h)

theorem splitOnChar_of_not_mem {sep : Char} {s : Str} (h : sep ∉ s) :
    splitOnChar sep s = [s] := by
  induction s with
  | nil => simp [splitOnChar]
  | cons a rest ih =>
    have hne : ¬ (a == sep) = true := by
      simp only [beq_iff_eq]
      rintro rfl
      exact h (List.mem_cons_self a rest)
    simp only [splitOnChar, if_neg hne]
    rw [ih (fun hm => h (List.mem_cons_of_mem a hm))]

theorem splitOnChar_append_cons {sep : Char} {x rest : Str} (hx : sep ∉ x) :
    splitOnChar sep (x ++ sep :: rest) = x :: splitOnChar sep rest := by
  induction x with
  | nil => simp [splitOnChar]
  | cons a as ih =>
    have hne : ¬ (a == sep) = true := by
      simp only [beq_iff_eq]
      rintro rfl
      exact hx (List.mem_cons_self a as)
    simp only [List.cons_append, splitOnChar, if_neg hne]
    simp only [List.append_eq]
    rw [ih (fun hm => hx (List.mem_cons_of_mem a hm))]

theorem joinSep_eq_nil_iff {sep : Str} (hsep : sep ≠ []) :
    ∀ l : List Str, (joinSep sep l = [] ↔ l = [] ∨ l = [[]])
  | [] => by simp [joinSep]
  | [x] => by simp [joinSep]
  | x :: y :: t => by
    simp only [joinSep]
    constructor
    · intro h
      rcases List.append_eq_nil.mp h with ⟨h1, h2⟩
      rcases List.append_eq_nil.mp h1 with ⟨_, h3⟩
      exact absurd h3 hsep
    · rintro (h | h) <;> simp at h

theorem splitOnChar_joinSep {sep : Char} :
    ∀ (ps : List Str), ps ≠ [] → (∀ p ∈ ps, sep ∉ p) →
      splitOnChar sep (joinSep [sep] ps) = ps := by
  intro ps
  induction ps with
  | nil => intro h _; exact absurd rfl h
  | cons x t ih =>
    intro _ hmem
    cases t with
    | nil => simpa [joinSep] using splitOnChar_of_not_mem (hmem x (by simp))
    | cons y t2 =>
      have hx : sep ∉ x := hmem x (by simp)
      have hj : joinSep [sep] (x :: y :: t2) = x ++ sep :: joinSep [sep] (y :: t2) := by
        simp [joinSep]
      rw [hj, splitOnChar_append_cons hx,
        ih (by simp) (fun p hp => hmem p (List.mem_cons_of_mem x hp))]

theorem mem_of_mem_dropWhile {α} {p : α → Bool} {l : List α} {a : α}
    (h : a ∈ l.dropWhile p) : a ∈ l := by
  induction l with
  | nil => simp at h
  | cons x xs ih =>
    rw [List.dropWhile_cons] at h
    split at h
    · exact List.mem_cons_of_mem x (ih h)
    · exact h

theorem mem_of_mem_pyStrip {s : Str} {a : Char} (h : a ∈ pyStrip s) : a ∈ s := by
  unfold pyStrip at h
  rw [List.mem_reverse] at h
  have h2 := mem_of_mem_dropWhile h
  rw [List.mem_reverse] at h2
  exact mem_of_mem_dropWhile h2

theorem natDigitsAux_lt_ten : ∀ (fuel n d : ℕ), d ∈ natDigitsAux fuel n → d < 10 := by
  intro fuel
  induction fuel with
  | zero => intro n d h; simp [natDigitsAux] at h
  | succ f ih =>
    intro n d h
    cases n with
    | zero => simp [natDigitsAux] at h
    | succ m =>
      simp only [natDigitsAux] at h
      rcases List.mem_cons.mp h with rfl | h
      · exact Nat.mod_lt _ (by norm_num)
      · exact ih _ _ h

theorem natToChars_ne_newline {n : ℕ} {ch : Char} (h : ch ∈ natToChars n) : ¬ ch = '\n' := by
  unfold natToChars at h
  split at h
  · rw [List.mem_singleton] at h
    subst h; decide
  · rw [List.mem_reverse, List.mem_map] at h
    obtain ⟨d, hd, rfl⟩ := h
    have hlt := natDigitsAux_lt_ten n n d hd
    interval_cases d <;> decide

theorem errMarker_no_newline (k : ℕ) :
    '\n' ∉ str "[... " ++ natToChars k ++ str " more error lines ...]" := by
  intro h
  rcases List.mem_append.mp h with h | h
  · rcases List.mem_append.mp h with h | h
    · revert h; decide
    · exact natToChars_ne_newline h rfl
  · revert h; decide

theorem errorKeyLines_no_newline {content p : Str} (h : p ∈ errorKeyLines content) :
    '\n' ∉ p := by
  unfold errorKeyLines at h
  have h1 := List.mem_of_mem_filter h
  rw [List.mem_map] at h1
  obtain ⟨l, hl, rfl⟩ := h1
  intro hm
  exact not_mem_of_mem_splitOnChar hl (mem_of_mem_pyStrip hm)

theorem errorKeyLines_qualifies {content p : Str} (h : p ∈ errorKeyLines content) :
    errorLineQualifies p = true :=
  (List.mem_filter.mp h).2

/-! ## Claim C2 -/

/-- C2, counterexample: compressing the empty string with kind `code` is not a
no-op: the entry's ratio is 1.0 but its compressed text is the annotation line
`# Code compressed: 1 -> 0 lines`, not the empty original. -/
theorem c2_counterexample :
    (mkEntry [] (str "code") none 0 (str "id0")).compression_ratio = 1
    ∧ (mkEntry [] (str "code") none 0 (str "id0")).compressed_content
        = str "# Code compressed: 1 -> 0 lines"
    ∧ ¬ (mkEntry [] (str "code") none 0 (str "id0")).compressed_content = [] :=
  ⟨rfl, by decide, by decide⟩

/-- C2 (amended): for every kind, compressing the empty string yields
`compression_ratio = 1.0`, but the compressed text equals the empty original
only for `conversation` and for generic/unrecognized kinds; for `code` it is
the one-line annotation `# Code compressed: 1 -> 0 lines`, for `error` it is
`...`, and for `solution` it is a single newline. -/
theorem c2_theorem (memory_type : Str) (context : Option Ctx) (now : ℚ) (memory_id : Str) :
    (mkEntry [] memory_type context now memory_id).compression_ratio = 1
    ∧ (mkEntry [] memory_type context now memory_id).compressed_content =
        (if memory_type == str "code" then str "# Code compressed: 1 -> 0 lines"
         else if memory_type == str "error" then str "..."
         else if memory_type == str "solution" then ['\n']
         else []) := by
  constructor
  · rfl
  · show _compress_by_type [] memory_type = _
    by_cases h1 : memory_type = str "conversation"
    · subst h1; decide
    · by_cases h2 : memory_type = str "code"
      · subst h2; decide
      · by_cases h3 : memory_type = str "error"
        · subst h3; decide
        · by_cases h4 : memory_type = str "solution"
          · subst h4; decide
          · have b1 : (memory_type == str "conversation") = false := by simp [h1]
            have b2 : (memory_type == str "code") = false := by simp [h2]
            have b3 : (memory_type == str "error") = false := by simp [h3]
            have b4 : (memory_type == str "solution") = false := by simp [h4]
            simp [_compress_by_type, _compress_generic, b1, b2, b3, b4]

/-! ## Claim C4 -/

/-- C4 (amended): for error-kind compression, when no stripped line qualifies
as an error/exception/traceback/file-reference line, the output is the first
500 characters of the raw text followed by the ellipsis marker `...` — the
marker is appended unconditionally (even for text of 500 characters or fewer)
and the last 500 characters are not included. -/
theorem c4_theorem (content : Str)
    (h : ∀ l ∈ (splitOnChar '\n' content).map pyStrip, errorLineQualifies l = false) :
    _compress_error content = content.take 500 ++ str "..." := by
  have hkl : errorKeyLines content = [] := by
    unfold errorKeyLines
    refine List.filter_eq_nil_iff.mpr ?_
    intro a ha
    simp [h a ha]
  simp [_compress_error, hkl]

/-- Witness for C4: the five-character text `hello` has no qualifying line and
compresses to its first 500 characters followed by `...`. -/
theorem c4_witness : _compress_error (str "hello") = (str "hello").take 500 ++ str "..." :=
  c4_theorem (str "hello") (by decide)

/-- C4, counterexample: `hello` (5 characters, shorter than the combined
fallback length, no qualifying line) is not returned unchanged — the code
yields `hello...`. -/
theorem c4_counterexample :
    errorKeyLines (str "hello") = []
    ∧ (str "hello").length ≤ 1000
    ∧ _compress_error (str "hello") = str "hello..."
    ∧ ¬ _compress_error (str "hello") = str "hello" := by decide

/-! ## Claim C5 -/

/-- C5 (amended): whenever more than 20 lines qualify, the error-kind output
consists of the first 10 qualifying lines, one omission-count marker line, and
the last 10 qualifying lines — 21 lines in total including the marker, not
22. -/
theorem c5_theorem (content : Str) (h : 20 < (errorKeyLines content).length) :
    splitOnChar '\n' (_compress_error content) =
      (errorKeyLines content).take 10
        ++ [str "[... " ++ natToChars ((errorKeyLines content).length - 20)
             ++ str " more error lines ...]"]
        ++ (errorKeyLines content).drop ((errorKeyLines content).length - 10)
    ∧ (splitOnChar '\n' (_compress_error content)).length = 21 := by
  have hne : (errorKeyLines content).take 10
      ++ [str "[... " ++ natToChars ((errorKeyLines content).length - 20)
           ++ str " more error lines ...]"]
      ++ (errorKeyLines content).drop ((errorKeyLines content).length - 10) ≠ [] := by
    simp
  have hout : _compress_error content =
      joinSep ['\n'] ((errorKeyLines content).take 10
        ++ [str "[... " ++ natToChars ((errorKeyLines content).length - 20)
             ++ str " more error lines ...]"]
        ++ (errorKeyLines content).drop ((errorKeyLines content).length - 10)) := by
    simp only [_compress_error]
    rw [if_pos h, if_neg]
    simp
  have helems : ∀ p ∈ (errorKeyLines content).take 10
      ++ [str "[... " ++ natToChars ((errorKeyLines content).length - 20)
           ++ str " more error lines ...]"]
      ++ (errorKeyLines content).drop ((errorKeyLines content).length - 10), '\n' ∉ p := by
    intro p hp
    rcases List.mem_append.mp hp with hp | hp
    · rcases List.mem_append.mp hp with hp | hp
      · exact errorKeyLines_no_newline (List.take_subset _ _ hp)
      · rw [List.mem_singleton] at hp
        subst hp
        exact errMarker_no_newline _
    · exact errorKeyLines_no_newline (List.drop_subset _ _ hp)
  have hsplit := hout ▸ splitOnChar_joinSep _ hne helems
  refine ⟨hsplit, ?_⟩
  rw [hsplit]
  simp only [List.length_append, List.length_take, List.length_drop, List.length_singleton]
  omega

/-- Witness for C5: the 25-line qualifying traceback `c25text`. -/
theorem c5_witness :
    splitOnChar '\n' (_compress_error c25text) =
      (errorKeyLines c25text).take 10
        ++ [str "[... " ++ natToChars ((errorKeyLines c25text).length - 20)
             ++ str " more error lines ...]"]
        ++ (errorKeyLines c25text).drop ((errorKeyLines c25text).length - 10)
    ∧ (splitOnChar '\n' (_compress_error c25text)).length = 21 :=
  c5_theorem c25text (by decide)

/-- C5, counterexample: on a 25-line traceback in which every line qualifies,
the compressed output has 21 lines including the marker, not 22 as claimed. -/
theorem c5_counterexample :
    (errorKeyLines c25text).length = 25
    ∧ (splitOnChar '\n' (_compress_error c25text)).length = 21
    ∧ ¬ (splitOnChar '\n' (_compress_error c25text)).length = 22 := by decide

/-! ## Claim C7 -/

theorem _compress_conversation_ne_nil {content : Str} (h : content ≠ []) :
    _compress_conversation content ≠ [] := by
  intro hc
  simp only [_compress_conversation] at hc
  rw [joinSep_eq_nil_iff (by decide)] at hc
  rcases hc with hc | hc
  · split at hc
    · simp at hc
    · exact splitOnChar_ne_nil '.' content hc
  · split at hc
    case isTrue hlen =>
      have hlen2 := congrArg List.length hc
      simp only [List.length_append, List.length_take, List.length_drop,
        List.length_singleton] at hlen2
      omega
    case isFalse hlen =>
      exact h (splitOnChar_eq_single hc).symm

theorem _compress_code_ne_nil {content : Str} :
    _compress_code content ≠ [] := by
  intro hc
  simp only [_compress_code] at hc
  rw [joinSep_eq_nil_iff (by decide)] at hc
  rcases hc with hc | hc
  · split at hc
    case isTrue hlen => simp at hc
    case isFalse hlen =>
      rw [hc] at hlen
      simp only [List.length_nil, Nat.zero_mul] at hlen
      exact splitOnChar_ne_nil '\n' content (List.length_eq_zero.mp (by omega))
  · split at hc
    case isTrue hlen =>
      injection hc with h1 h2
      rcases List.append_eq_nil.mp h1 with ⟨_, hD⟩
      exact absurd hD (by decide)
    case isFalse hlen =>
      have hmem : ([] : Str) ∈ ((splitOnChar '\n' content).map pyStrip).filter
          (fun line => !(line == []) && !(startsWith line (str "#")) && matchesCodePattern line) := by
        rw [hc]
        exact List.mem_singleton_self []
      have hq := (List.mem_filter.mp hmem).2
      exact absurd hq (by decide)

theorem _compress_error_ne_nil {content : Str} : _compress_error content ≠ [] := by
  intro hc
  simp only [_compress_error] at hc
  split at hc
  case isTrue h20 =>
    split at hc
    case isTrue hkey =>
      rcases List.append_eq_nil.mp hc with ⟨_, hD⟩
      exact absurd hD (by decide)
    case isFalse hkey =>
      rw [joinSep_eq_nil_iff (by decide)] at hc
      rcases hc with hc | hc
      · rw [hc] at hkey
        simp at hkey
      · have hlen2 := congrArg List.length hc
        simp only [List.length_append, List.length_take, List.length_drop,
          List.length_singleton] at hlen2
        omega
  case isFalse h20 =>
    split at hc
    case isTrue hkey =>
      rcases List.append_eq_nil.mp hc with ⟨_, hD⟩
      exact absurd hD (by decide)
    case isFalse hkey =>
      rw [joinSep_eq_nil_iff (by decide)] at hc
      rcases hc with hc | hc
      · rw [hc] at hkey
        simp at hkey
      · have hq := @errorKeyLines_qualifies content []
          (by rw [hc]; exact List.mem_singleton_self [])
        exact absurd hq (by decide)

theorem _compress_solution_ne_nil {content : Str} :
    _compress_solution content ≠ [] := by
  intro hc
  have hlines : splitOnChar '\n' content ≠ [] := splitOnChar_ne_nil '\n' content
  have hn : 0 < (splitOnChar '\n' content).length := List.length_pos.mpr hlines
  simp only [_compress_solution] at hc
  rw [joinSep_eq_nil_iff (by decide)] at hc
  rcases hc with hc | hc
  · split at hc
    case isTrue hlen =>
      rcases List.append_eq_nil.mp hc with ⟨h1, _⟩
      rcases List.append_eq_nil.mp h1 with ⟨h2, _⟩
      have hlen2 := congrArg List.length h2
      simp only [List.length_take, List.length_nil] at hlen2
      omega
    case isFalse hlen =>
      rw [hc] at hlen
      simp only [List.length_nil, Nat.zero_mul] at hlen
      omega
  · split at hc
    case isTrue hlen =>
      have hlen2 := congrArg List.length hc
      simp only [List.length_append, List.length_take, List.length_drop,
        List.length_singleton] at hlen2
      omega
    case isFalse hlen =>
      have hmem : ([] : Str) ∈ ((splitOnChar '\n' content).map pyStrip).filter
          solutionLineQualifies := by
        rw [hc]
        exact List.mem_singleton_self []
      have hq := (List.mem_filter.mp hmem).2
      exact absurd hq (by decide)

theorem _compress_generic_ne_nil {content : Str} (h : content ≠ []) :
    _compress_generic content ≠ [] := by
  intro hc
  unfold _compress_generic at hc
  split at hc
  · rcases List.append_eq_nil.mp hc with ⟨h1, _⟩
    rcases List.append_eq_nil.mp h1 with ⟨_, hM⟩
    exact absurd hM (by decide)
  · exact h hc

/-- C7: for every non-empty input text and every kind (conversation, code,
error, solution, and any unrecognized kind handled generically), the
compressed text produced by the compression operation is non-empty. -/
theorem c7_theorem (content memory_type : Str) (h : content ≠ []) :
    _compress_by_type content memory_type ≠ [] := by
  unfold _compress_by_type
  split_ifs with h1 h2 h3 h4
  · exact _compress_conversation_ne_nil h
  · exact _compress_code_ne_nil
  · exact _compress_error_ne_nil
  · exact _compress_solution_ne_nil
  · exact _compress_generic_ne_nil h

/-- Witness for C7: the one-character text `x` under the generic kind. -/
theorem c7_witness : _compress_by_type (str "x") (str "generic") ≠ [] :=
  c7_theorem (str "x") (str "generic") (by decide)

example : _compress_by_type [] (str "code") = str "# Code compressed: 1 -> 0 lines" := by decide
example : _compress_by_type [] (str "error") = str "..." := by decide
example : _compress_by_type [] (str "solution") = ['\n'] := by decide
example : _compress_by_type [] (str "conversation") = [] := by decide
example : _compress_by_type [] (str "context") = [] := by decide
example : _compress_error (str "hello") = str "hello..." := by decide
example : _compress_by_type (str "def f(): pass") (str "code") = str "def f(): pass" := by decide

/-! ## Claims C6 and C10 -/

theorem calculate_importance_eq (content memory_type : Str) (context : Option Ctx) :
    _calculate_importance content memory_type context =
      0.2 * min ((content.length : ℚ) / 1000) 1
      + 0.3 * min ((countErrorKeywords content : ℚ) / 6) 1
      + (if memory_type = str "code" then 0.2 * _calculate_code_complexity content else 0)
      + (match ctxRelevance context with
         | some r => 0.2 * r
         | none => 0)
      + 0.1 := by
  have h6 : (error_keywords.length : ℚ) = 6 := by norm_num [error_keywords]
  simp only [_calculate_importance, h6]
  by_cases hk : memory_type = str "code"
  · cases hrel : ctxRelevance context with
    | none => simp [hk, hrel, List.sum_append]; ring
    | some r => simp [hk, hrel, List.sum_append]; ring
  · have hk2 : (memory_type == str "code") = false := by simp [hk]
    cases hrel : ctxRelevance context with
    | none => simp [hk, hk2, hrel, List.sum_append]; ring
    | some r => simp [hk, hk2, hrel, List.sum_append]; ring

theorem complexity_nonneg (code : Str) : 0 ≤ _calculate_code_complexity code := by
  unfold _calculate_code_complexity
  refine le_min (List.sum_nonneg ?_) (by norm_num)
  intro x hx
  rw [List.mem_map] at hx
  obtain ⟨pw, hpw, rfl⟩ := hx
  have hw : (0 : ℚ) ≤ pw.2 := by
    simp only [complexity_indicators, List.mem_cons, List.not_mem_nil, or_false] at hpw
    rcases hpw with rfl | rfl | rfl | rfl | rfl | rfl | rfl | rfl <;> norm_num
  exact le_min (mul_nonneg (Nat.cast_nonneg _) hw) (by norm_num)

/-- C6: for every text, kind and context, the importance score equals the sum
of the present weighted factors: `0.2 * min(len(text)/1000, 1)`, plus
`0.3 * min(f, 1)` where `f` is the fraction of the six error keywords found
case-insensitively in the text, plus `0.2 * code-complexity(text)` only when
the kind is `code`, plus `0.2 * relevance` only when the context carries a
`relevance` key, plus the constant recency placeholder `0.1`; the sum is not
re-normalized. -/
theorem c6_theorem (content memory_type : Str) (context : Option Ctx) :
    _calculate_importance content memory_type context =
      0.2 * min ((content.length : ℚ) / 1000) 1
      + 0.3 * min ((countErrorKeywords content : ℚ) / 6) 1
      + (if memory_type = str "code" then 0.2 * _calculate_code_complexity content else 0)
      + (match ctxRelevance context with
         | some r => 0.2 * r
         | none => 0)
      + 0.1 :=
  calculate_importance_eq content memory_type context

/-- C10: whenever the context lacks a `relevance` key or maps it to a
non-negative value, the importance computed at entry creation is at least the
constant recency placeholder `0.1`, hence strictly positive. -/
theorem c10_theorem (content memory_type : Str) (context : Option Ctx)
    (h : ∀ r, ctxRelevance context = some r → 0 ≤ r) :
    0.1 ≤ _calculate_importance content memory_type context
    ∧ 0 < _calculate_importance content memory_type context := by
  have heq := calculate_importance_eq content memory_type context
  have h1 : (0 : ℚ) ≤ 0.2 * min ((content.length : ℚ) / 1000) 1 :=
    mul_nonneg (by norm_num) (le_min (by positivity) (by norm_num))
  have h2 : (0 : ℚ) ≤ 0.3 * min ((countErrorKeywords content : ℚ) / 6) 1 :=
    mul_nonneg (by norm_num) (le_min (by positivity) (by norm_num))
  have h3 : (0 : ℚ) ≤
      (if memory_type = str "code" then 0.2 * _calculate_code_complexity content else 0) := by
    split
    · exact mul_nonneg (by norm_num) (complexity_nonneg content)
    · exact le_refl 0
  have h4 : (0 : ℚ) ≤
      (match ctxRelevance context with
       | some r => 0.2 * r
       | none => 0) := by
    cases hrel : ctxRelevance context with
    | none => exact le_refl 0
    | some r => exact mul_nonneg (by norm_num) (h r hrel)
  constructor
  · rw [heq]; linarith
  · rw [heq]; linarith

/-- Witness for C10: the empty text under the generic kind with no context. -/
theorem c10_witness :
    0.1 ≤ _calculate_importance [] (str "generic") none
    ∧ 0 < _calculate_importance [] (str "generic") none :=
  c10_theorem [] (str "generic") none (by intro r h; simp [ctxRelevance] at h)

/-! ## Claims C8 and C1 -/

theorem searchCandidates_mem {s : MemoryCompressor} {q : Str} {mt : Option Str}
    {p : ℚ × CompressedMemory} (h : p ∈ searchCandidates s q mt) :
    p.1 = searchScore q p.2 ∧ typeMatches mt p.2 = true ∧ 0 < searchScore q p.2
      ∧ p.2 ∈ s.compressed_memories.map Prod.snd := by
  unfold searchCandidates at h
  rw [List.mem_filterMap] at h
  obtain ⟨m, hm, hcond⟩ := h
  split at hcond
  case isTrue ht =>
    split at hcond
    case isTrue hs =>
      obtain rfl := Option.some.inj hcond
      exact ⟨rfl, ht, hs, hm⟩
    case isFalse hs => simp at hcond
  case isFalse ht => simp at hcond

theorem searchCandidates_mem_of {s : MemoryCompressor} {q : Str} {mt : Option Str}
    {m : CompressedMemory} (hm : m ∈ s.compressed_memories.map Prod.snd)
    (ht : typeMatches mt m = true) (hs : 0 < searchScore q m) :
    (searchScore q m, m) ∈ searchCandidates s q mt := by
  unfold searchCandidates
  rw [List.mem_filterMap]
  exact ⟨m, hm, by rw [if_pos ht, if_pos hs]⟩

theorem searchDescTrans :
    ∀ a b c : ℚ × CompressedMemory, decide (b.1 ≤ a.1) = true → decide (c.1 ≤ b.1) = true →
      decide (c.1 ≤ a.1) = true := by
  intro a b c hab hbc
  rw [decide_eq_true_iff] at *
  exact le_trans hbc hab

theorem searchDescTotal :
    ∀ a b : ℚ × CompressedMemory, (decide (b.1 ≤ a.1) || decide (a.1 ≤ b.1)) = true := by
  intro a b
  rcases le_total b.1 a.1 with h | h <;> simp [h]

/-- C8: for every store, query, optional kind filter and limit, `search`
returns only entries that pass the kind filter and have total score > 0,
sorted non-increasing by the computed score, at most `limit` of them; and
whenever the candidate list fits within `limit`, every entry with positive
score that passes the filter is returned. -/
theorem c8_theorem (s : MemoryCompressor) (query : Str) (memory_type : Option Str) (limit : ℕ) :
    (search_memories s query memory_type limit).Pairwise
        (fun m1 m2 => searchScore query m2 ≤ searchScore query m1)
    ∧ (search_memories s query memory_type limit).length ≤ limit
    ∧ (∀ m ∈ search_memories s query memory_type limit,
        0 < searchScore query m ∧ typeMatches memory_type m = true
          ∧ m ∈ s.compressed_memories.map Prod.snd)
    ∧ ((searchCandidates s query memory_type).length ≤ limit →
        ∀ m ∈ s.compressed_memories.map Prod.snd,
          typeMatches memory_type m = true → 0 < searchScore query m →
            m ∈ search_memories s query memory_type limit) := by
  have hsorted := @List.sorted_mergeSort _ (fun a b : ℚ × CompressedMemory => decide (b.1 ≤ a.1))
    searchDescTrans searchDescTotal (searchCandidates s query memory_type)
  refine ⟨?_, ?_, ?_, ?_⟩
  · unfold search_memories
    rw [List.pairwise_map]
    refine List.Pairwise.sublist (List.take_sublist _ _) ?_
    refine List.Pairwise.imp_of_mem ?_ hsorted
    intro a b ha hb hab
    have ha2 := searchCandidates_mem (List.mem_mergeSort.mp ha)
    have hb2 := searchCandidates_mem (List.mem_mergeSort.mp hb)
    rw [decide_eq_true_iff] at hab
    rw [← ha2.1, ← hb2.1]
    exact hab
  · unfold search_memories
    rw [List.length_map]
    exact List.length_take_le _ _
  · intro m hm
    unfold search_memories at hm
    rw [List.mem_map] at hm
    obtain ⟨p, hp, rfl⟩ := hm
    have hp2 := searchCandidates_mem (List.mem_mergeSort.mp (List.take_subset _ _ hp))
    exact ⟨hp2.2.2.1, hp2.2.1, hp2.2.2.2⟩
  · intro hlen m hm ht hs
    unfold search_memories
    have hall : ((searchCandidates s query memory_type).mergeSort
        (fun a b => decide (b.1 ≤ a.1))).take limit =
        (searchCandidates s query memory_type).mergeSort (fun a b => decide (b.1 ≤ a.1)) :=
      List.take_of_length_le (by rw [List.length_mergeSort]; exact hlen)
    rw [hall]
    have hmem : (searchScore query m, m) ∈ (searchCandidates s query memory_type).mergeSort
        (fun a b => decide (b.1 ≤ a.1)) :=
      List.mem_mergeSort.mpr (searchCandidates_mem_of hm ht hs)
    exact List.mem_map_of_mem Prod.snd hmem

/-- C1 (amended): search's importance bonus is added unconditionally, so an
entry appearing in the results has a content hit, an entity hit, or a strictly
positive importance score; an entry with no substring hit anywhere is excluded
only when its importance score is not positive. -/
theorem c1_theorem (s : MemoryCompressor) (query : Str) (memory_type : Option Str)
    (limit : ℕ) (m : CompressedMemory)
    (h : m ∈ search_memories s query memory_type limit) :
    contentHit query m = true ∨ entityHit query m = true ∨ 0 < m.importance_score := by
  have hsound : 0 < searchScore query m := by
    unfold search_memories at h
    rw [List.mem_map] at h
    obtain ⟨p, hp, rfl⟩ := h
    exact (searchCandidates_mem (List.mem_mergeSort.mp (List.take_subset _ _ hp))).2.2.1
  by_cases hc : contentHit query m = true
  · exact Or.inl hc
  · by_cases he : entityHit query m = true
    · exact Or.inr (Or.inl he)
    · refine Or.inr (Or.inr ?_)
      have hval : searchScore query m = m.importance_score * 0.3 := by
        simp [searchScore, hc, he]
      rw [hval] at hsound
      nlinarith

/-- Search on `storeA` for the absent token `zzz` returns `entryA` anyway. -/
theorem c1_search_eval : search_memories storeA (str "zzz") none 10 = [entryA] := by
  have hch : contentHit (str "zzz") entryA = false := by decide
  have heh : entityHit (str "zzz") entryA = false := by decide
  have hpos : 0 < searchScore (str "zzz") entryA := by
    rw [show searchScore (str "zzz") entryA = entryA.importance_score * 0.3 by
      simp [searchScore, hch, heh]]
    rw [show entryA.importance_score = 0.1 from rfl]
    norm_num
  have hcand : searchCandidates storeA (str "zzz") none =
      [(searchScore (str "zzz") entryA, entryA)] := by
    unfold searchCandidates storeA initMemoryCompressor
    simp [typeMatches, hpos]
  unfold search_memories
  rw [hcand, List.mergeSort_singleton]
  rfl

/-- C1, counterexample: `entryA` has no substring hit for query `zzz`, neither
in its compressed content nor in its entities, yet searching the non-empty
`storeA` for `zzz` returns it (so the result list is not empty and the
importance bonus applied without any hit). -/
theorem c1_counterexample :
    contentHit (str "zzz") entryA = false
    ∧ entityHit (str "zzz") entryA = false
    ∧ storeA.compressed_memories ≠ []
    ∧ search_memories storeA (str "zzz") none 10 = [entryA] :=
  ⟨by decide, by decide, by decide, c1_search_eval⟩

/-- Witness for C1 at `storeA`, query `zzz`, limit 10. -/
theorem c1_witness :
    contentHit (str "zzz") entryA = true ∨ entityHit (str "zzz") entryA = true
      ∨ 0 < entryA.importance_score :=
  c1_theorem storeA (str "zzz") none 10 entryA
    (by rw [c1_search_eval]; exact List.mem_singleton_self entryA)


/-! ## Claim C3: order lemmas for the eviction sort -/

theorem strLtB_irrefl : ∀ s : Str, strLtB s s = false := by
  intro s
  induction s with
  | nil => rfl
  | cons a as ih => simp [strLtB, ih]

theorem strLtB_cons_iff {x y : Char} {xs ys : Str} :
    strLtB (x :: xs) (y :: ys) = true ↔ x < y ∨ (x = y ∧ strLtB xs ys = true) := by
  simp only [strLtB]
  rcases lt_trichotomy x y with h | h | h
  · simp [h]
  · subst h
    simp [lt_irrefl]
  · have h1 : ¬ x < y := asymm h
    have h2 : ¬ x = y := ne_of_gt h
    simp [h1, h, h2]

theorem strLtB_trans : ∀ a b c : Str,
    strLtB a b = true → strLtB b c = true → strLtB a c = true
  | [], [], _, hab, _ => by simp [strLtB] at hab
  | [], _ :: _, [], _, hbc => by simp [strLtB] at hbc
  | [], _ :: _, _ :: _, _, _ => by simp [strLtB]
  | _ :: _, [], _, hab, _ => by simp [strLtB] at hab
  | _ :: _, _ :: _, [], _, hbc => by simp [strLtB] at hbc
  | x :: xs, y :: ys, z :: zs, hab, hbc => by
    rw [strLtB_cons_iff] at hab hbc ⊢
    rcases hab with h1 | ⟨rfl, h1⟩
    · rcases hbc with h2 | ⟨rfl, h2⟩
      · exact Or.inl (lt_trans h1 h2)
      · exact Or.inl h1
    · rcases hbc with h2 | ⟨rfl, h2⟩
      · exact Or.inl h2
      · exact Or.inr ⟨rfl, strLtB_trans xs ys zs h1 h2⟩

theorem strLtB_connex : ∀ a b : Str,
    strLtB a b = false → strLtB b a = false → a = b
  | [], [], _, _ => rfl
  | [], _ :: _, hab, _ => by simp [strLtB] at hab
  | _ :: _, [], _, hba => by simp [strLtB] at hba
  | x :: xs, y :: ys, hab, hba => by
    have h1 : ¬ (x < y ∨ (x = y ∧ strLtB xs ys = true)) := by
      rw [← strLtB_cons_iff, hab]
      simp
    have h2 : ¬ (y < x ∨ (y = x ∧ strLtB ys xs = true)) := by
      rw [← strLtB_cons_iff, hba]
      simp
    push_neg at h1 h2
    have hxy : x = y := le_antisymm h2.1 h1.1
    subst hxy
    have hxs : strLtB xs ys = false := by
      cases hb : strLtB xs ys
      · rfl
      · exact absurd hb (h1.2 rfl)
    have hys : strLtB ys xs = false := by
      cases hb : strLtB ys xs
      · rfl
      · exact absurd hb (h2.2 rfl)
    rw [strLtB_connex xs ys hxs hys]

theorem pairLe_iff {a b : ℚ × Str} :
    pairLe a b = true ↔ a.1 < b.1 ∨ (a.1 = b.1 ∧ strLtB b.2 a.2 = false) := by
  unfold pairLe strLeB
  rcases lt_trichotomy a.1 b.1 with h | h | h
  · simp [h]
  · simp [h, lt_irrefl]
  · have h1 : ¬ a.1 < b.1 := asymm h
    have h2 : ¬ a.1 = b.1 := ne_of_gt h
    simp [h1, h, h2]

theorem pairLe_trans :
    ∀ a b c : ℚ × Str, pairLe a b = true → pairLe b c = true → pairLe a c = true := by
  intro a b c hab hbc
  rw [pairLe_iff] at hab hbc ⊢
  rcases hab with h1 | ⟨h1, h1s⟩
  · rcases hbc with h2 | ⟨h2, h2s⟩
    · exact Or.inl (lt_trans h1 h2)
    · exact Or.inl (h2 ▸ h1)
  · rcases hbc with h2 | ⟨h2, h2s⟩
    · exact Or.inl (h1 ▸ h2)
    · refine Or.inr ⟨h1.trans h2, ?_⟩
      cases hca : strLtB c.2 a.2
      · rfl
      · exfalso
        cases hab2 : strLtB a.2 b.2
        · have heq := strLtB_connex a.2 b.2 hab2 h1s
          rw [heq] at hca
          rw [h2s] at hca
          exact Bool.false_ne_true hca
        · have := strLtB_trans c.2 a.2 b.2 hca hab2
          rw [h2s] at this
          exact Bool.false_ne_true this

theorem pairLe_total : ∀ a b : ℚ × Str, (pairLe a b || pairLe b a) = true := by
  intro a b
  rcases lt_trichotomy a.1 b.1 with h | h | h
  · have hp : pairLe a b = true := pairLe_iff.mpr (Or.inl h)
    simp [hp]
  · cases hs : strLtB b.2 a.2
    · have hp : pairLe a b = true := pairLe_iff.mpr (Or.inr ⟨h, hs⟩)
      simp [hp]
    · have ha : strLtB a.2 b.2 = false := by
        cases hx : strLtB a.2 b.2
        · rfl
        · have := strLtB_trans a.2 b.2 a.2 hx hs
          rw [strLtB_irrefl] at this
          exact (Bool.false_ne_true this).elim
      have hp : pairLe b a = true := pairLe_iff.mpr (Or.inr ⟨h.symm, ha⟩)
      simp [hp]
  · have hp : pairLe b a = true := pairLe_iff.mpr (Or.inl h)
    simp [hp]

theorem pairLe_fst_le {a b : ℚ × Str} (h : pairLe a b = true) : a.1 ≤ b.1 := by
  rcases pairLe_iff.mp h with h | ⟨h, _⟩
  · exact le_of_lt h
  · exact le_of_eq h

/-! ## Claim C3: association-list lemmas for the removal loop -/

theorem lookup_none_all (mid : Str) :
    ∀ l : List (Str × CompressedMemory), l.lookup mid = none →
      l.filter (fun p => !(p.1 == mid)) = l ∧ l.filter (fun p => p.1 == mid) = []
  | [], _ => ⟨rfl, rfl⟩
  | (k, v) :: t, h => by
    cases hk : (mid == k)
    case true =>
      simp only [List.lookup_cons, hk] at h
      simp at h
    case false =>
      simp only [List.lookup_cons, hk] at h
      have ih := lookup_none_all mid t h
      have hk2 : (k == mid) = false := by
        rw [beq_eq_false_iff_ne] at hk ⊢
        exact fun he => hk he.symm
      refine ⟨?_, ?_⟩
      · simp [List.filter_cons, hk2, ih.1]
      · simp [List.filter_cons, hk2, ih.2]

theorem eraseP_eq_filter_of_nodup (mid : Str) :
    ∀ l : List (Str × CompressedMemory), (l.map Prod.fst).Nodup →
      l.eraseP (fun p => p.1 == mid) = l.filter (fun p => !(p.1 == mid))
  | [], _ => rfl
  | (k, v) :: t, hnd => by
    simp only [List.map_cons, List.nodup_cons] at hnd
    cases hk : (k == mid)
    case false =>
      have ih := eraseP_eq_filter_of_nodup mid t hnd.2
      simp [List.eraseP_cons, List.filter_cons, hk, ih]
    case true =>
      rw [beq_iff_eq] at hk
      subst hk
      have ht : t.filter (fun p => !(p.1 == k)) = t := by
        rw [List.filter_eq_self]
        intro p hp
        have hne : p.1 ≠ k := by
          intro he
          exact hnd.1 (he ▸ List.mem_map_of_mem Prod.fst hp)
        simp [hne]
      simp [List.eraseP_cons, List.filter_cons, ht]

theorem lookup_some_filter (mid : Str) :
    ∀ (l : List (Str × CompressedMemory)) (m : CompressedMemory),
      (l.map Prod.fst).Nodup → l.lookup mid = some m →
      l.filter (fun p => p.1 == mid) = [(mid, m)]
  | [], m, _, h => by simp at h
  | (k, v) :: t, m, hnd, h => by
    simp only [List.map_cons, List.nodup_cons] at hnd
    cases hk : (mid == k)
    case true =>
      rw [beq_iff_eq] at hk
      subst hk
      simp only [List.lookup_cons, beq_self_eq_true] at h
      have hv : v = m := by
        injection h
      subst hv
      have ht : t.filter (fun p => p.1 == mid) = [] := by
        rw [List.filter_eq_nil_iff]
        intro p hp
        have hne : p.1 ≠ mid := by
          intro he
          exact hnd.1 (he ▸ List.mem_map_of_mem Prod.fst hp)
        simp [hne]
      simp [List.filter_cons, ht]
    case false =>
      simp only [List.lookup_cons, hk] at h
      have hk2 : (k == mid) = false := by
        rw [beq_eq_false_iff_ne] at hk ⊢
        exact fun he => hk he.symm
      simp only [List.filter_cons, hk2]
      simp only [Bool.false_eq_true, if_false]
      exact lookup_some_filter mid t m hnd.2 h

theorem removeOne_spec (s : MemoryCompressor) (mid : Str)
    (hnd : (s.compressed_memories.map Prod.fst).Nodup) :
    (removeOne s mid).compressed_memories
        = s.compressed_memories.filter (fun p => !(p.1 == mid))
    ∧ (removeOne s mid).total_original_size
        = s.total_original_size - ((s.compressed_memories.filter (fun p => p.1 == mid)).map
            (fun p => (p.2.original_content.length : ℤ))).sum
    ∧ (removeOne s mid).total_compressed_size
        = s.total_compressed_size - ((s.compressed_memories.filter (fun p => p.1 == mid)).map
            (fun p => (p.2.compressed_content.length : ℤ))).sum
    ∧ (removeOne s mid).max_memory_size = s.max_memory_size := by
  cases hlk : s.compressed_memories.lookup mid with
  | none =>
    have hr : removeOne s mid = s := by
      unfold removeOne
      rw [hlk]
    have hnil := (lookup_none_all mid s.compressed_memories hlk).2
    rw [hr, hnil]
    exact ⟨(lookup_none_all mid s.compressed_memories hlk).1.symm, by simp, by simp, rfl⟩
  | some m =>
    have hr : removeOne s mid = { s with
        compressed_memories := s.compressed_memories.eraseP (fun p => p.1 == mid),
        total_original_size := s.total_original_size - m.original_content.length,
        total_compressed_size := s.total_compressed_size - m.compressed_content.length } := by
      unfold removeOne
      rw [hlk]
    have hfl := lookup_some_filter mid s.compressed_memories m hnd hlk
    rw [hr, hfl]
    exact ⟨eraseP_eq_filter_of_nodup mid s.compressed_memories hnd, by simp, by simp, rfl⟩

theorem filter_sum_split (g : Str × CompressedMemory → ℤ) (mid : Str) (R : List Str) :
    ∀ l : List (Str × CompressedMemory),
      ((l.filter (fun p => decide (p.1 ∈ mid :: R))).map g).sum
        = ((l.filter (fun p => p.1 == mid)).map g).sum
          + (((l.filter (fun p => !(p.1 == mid))).filter (fun p => decide (p.1 ∈ R))).map g).sum
  | [] => by simp
  | p :: t => by
    have ih := filter_sum_split g mid R t
    by_cases h1 : p.1 = mid
    · have hb : (p.1 == mid) = true := by rw [beq_iff_eq]; exact h1
      have hm : decide (p.1 ∈ mid :: R) = true := by simp [h1]
      simp only [List.filter_cons, hb, hm, Bool.not_true, List.map_cons, List.sum_cons,
        if_true, Bool.false_eq_true, if_false]
      rw [ih]
      ring
    · have hb : (p.1 == mid) = false := by rw [beq_eq_false_iff_ne]; exact h1
      by_cases h2 : p.1 ∈ R
      · have hm : decide (p.1 ∈ mid :: R) = true := by simp [h2]
        have hm2 : decide (p.1 ∈ R) = true := by simp [h2]
        simp only [List.filter_cons, hb, hm, hm2, Bool.not_false, List.map_cons, List.sum_cons,
          if_true, Bool.false_eq_true, if_false]
        rw [ih]
        ring
      · have hm : decide (p.1 ∈ mid :: R) = false := by simp [h1, h2]
        have hm2 : decide (p.1 ∈ R) = false := by simp [h2]
        simp only [List.filter_cons, hb, hm, hm2, Bool.not_false, if_true,
          Bool.false_eq_true, if_false]
        exact ih

theorem foldl_removeOne_spec :
    ∀ (R : List Str) (s : MemoryCompressor), (s.compressed_memories.map Prod.fst).Nodup →
      ((R.foldl removeOne s).compressed_memories
          = s.compressed_memories.filter (fun p => !(decide (p.1 ∈ R)))
        ∧ (R.foldl removeOne s).total_original_size
          = s.total_original_size
            - ((s.compressed_memories.filter (fun p => decide (p.1 ∈ R))).map
                (fun p => (p.2.original_content.length : ℤ))).sum
        ∧ (R.foldl removeOne s).total_compressed_size
          = s.total_compressed_size
            - ((s.compressed_memories.filter (fun p => decide (p.1 ∈ R))).map
                (fun p => (p.2.compressed_content.length : ℤ))).sum
        ∧ (R.foldl removeOne s).max_memory_size = s.max_memory_size)
  | [], s, hnd => by
    refine ⟨by simp, by simp, by simp, rfl⟩
  | mid :: R', s, hnd => by
    have hro := removeOne_spec s mid hnd
    have hnd' : ((removeOne s mid).compressed_memories.map Prod.fst).Nodup := by
      rw [hro.1]
      exact List.Nodup.sublist (List.Sublist.map _ (List.filter_sublist _)) hnd
    have ih := foldl_removeOne_spec R' (removeOne s mid) hnd'
    have hfoldl : (mid :: R').foldl removeOne s = R'.foldl removeOne (removeOne s mid) := rfl
    refine ⟨?_, ?_, ?_, ?_⟩
    · rw [hfoldl, ih.1, hro.1, List.filter_filter]
      apply List.filter_congr
      intro p hp
      by_cases h1 : p.1 = mid <;> by_cases h2 : p.1 ∈ R' <;> simp [h1, h2]
    · rw [hfoldl, ih.2.1, hro.1, hro.2.1, List.filter_filter,
        filter_sum_split (fun p => (p.2.original_content.length : ℤ)) mid R' s.compressed_memories]
      have hcg : (s.compressed_memories.filter (fun p => !(p.1 == mid))).filter
            (fun p => decide (p.1 ∈ R'))
          = s.compressed_memories.filter (fun a => decide (a.1 ∈ R') && !(a.1 == mid)) :=
        List.filter_filter _ _
      rw [← hcg]
      ring
    · rw [hfoldl, ih.2.2.1, hro.1, hro.2.2.1, List.filter_filter,
        filter_sum_split (fun p => (p.2.compressed_content.length : ℤ)) mid R' s.compressed_memories]
      have hcg : (s.compressed_memories.filter (fun p => !(p.1 == mid))).filter
            (fun p => decide (p.1 ∈ R'))
          = s.compressed_memories.filter (fun a => decide (a.1 ∈ R') && !(a.1 == mid)) :=
        List.filter_filter _ _
      rw [← hcg]
      ring
    · rw [hfoldl, ih.2.2.2, hro.2.2.2]

/-! ## Claim C3: eviction correctness -/

theorem assoc_key_unique {l : List (Str × CompressedMemory)}
    (hnd : (l.map Prod.fst).Nodup) :
    ∀ {p q : Str × CompressedMemory}, p ∈ l → q ∈ l → p.1 = q.1 → p = q := by
  induction l with
  | nil => intro p q hp _ _; simp at hp
  | cons a t ih =>
    simp only [List.map_cons, List.nodup_cons] at hnd
    intro p q hp hq hk
    rcases List.mem_cons.mp hp with hpa | hpt
    · rcases List.mem_cons.mp hq with hqa | hqt
      · rw [hpa, hqa]
      · exfalso
        apply hnd.1
        have hmem : q.1 ∈ t.map Prod.fst := List.mem_map_of_mem Prod.fst hqt
        rwa [← hk, hpa] at hmem
    · rcases List.mem_cons.mp hq with hqa | hqt
      · exfalso
        apply hnd.1
        have hmem : p.1 ∈ t.map Prod.fst := List.mem_map_of_mem Prod.fst hpt
        rwa [hk, hqa] at hmem
      · exact ih hnd.2 hpt hqt hk

theorem evictedIds_sub_keys (now : ℚ) (s : MemoryCompressor) :
    ∀ mid ∈ evictedIds now s, mid ∈ s.compressed_memories.map Prod.fst := by
  intro mid hmid
  unfold evictedIds at hmid
  rw [List.mem_map] at hmid
  obtain ⟨pr, hpr, rfl⟩ := hmid
  have h2 : pr ∈ (s.compressed_memories.map
      (fun p => (combined_score now p.2, p.1))).mergeSort pairLe :=
    List.take_subset _ _ hpr
  rw [List.mem_mergeSort, List.mem_map] at h2
  obtain ⟨p, hp, rfl⟩ := h2
  exact List.mem_map_of_mem Prod.fst hp

theorem evictedIds_nodup (now : ℚ) (s : MemoryCompressor)
    (hnd : (s.compressed_memories.map Prod.fst).Nodup) : (evictedIds now s).Nodup := by
  unfold evictedIds
  have hperm : (((s.compressed_memories.map
        (fun p => (combined_score now p.2, p.1))).mergeSort pairLe).map Prod.snd).Perm
      (s.compressed_memories.map Prod.fst) := by
    refine (List.Perm.map Prod.snd (List.mergeSort_perm _ _)).trans ?_
    rw [List.map_map]
    exact List.Perm.of_eq rfl
  have hnodup2 := hperm.nodup_iff.mpr hnd
  rw [List.map_take]
  exact List.Nodup.sublist (List.take_sublist _ _) hnodup2

theorem evictedIds_length (now : ℚ) (s : MemoryCompressor)
    (hover : s.max_memory_size < s.compressed_memories.length) :
    (evictedIds now s).length = s.compressed_memories.length - s.max_memory_size := by
  unfold evictedIds
  rw [List.length_map, List.length_take, List.length_mergeSort, List.length_map]
  omega

theorem filter_key_mem_length (l : List (Str × CompressedMemory)) (E : List Str)
    (hnd : (l.map Prod.fst).Nodup) (hEnd : E.Nodup) (hsub : ∀ x ∈ E, x ∈ l.map Prod.fst) :
    (l.filter (fun p => decide (p.1 ∈ E))).length = E.length := by
  have h1 : (l.filter (fun p => decide (p.1 ∈ E))).length
      = ((l.map Prod.fst).filter (fun x => decide (x ∈ E))).length := by
    rw [← List.countP_eq_length_filter, ← List.countP_eq_length_filter, List.countP_map]
    rfl
  rw [h1]
  have hperm : ((l.map Prod.fst).filter (fun x => decide (x ∈ E))).Perm E := by
    rw [List.perm_ext_iff_of_nodup (List.Nodup.filter _ hnd) hEnd]
    intro a
    simp only [List.mem_filter, decide_eq_true_iff]
    constructor
    · exact fun h => h.2
    · exact fun h => ⟨hsub a h, h⟩
  exact hperm.length_eq

theorem cleanup_dominance (now : ℚ) (s : MemoryCompressor)
    (hnd : (s.compressed_memories.map Prod.fst).Nodup) :
    ∀ p ∈ s.compressed_memories, p.1 ∈ evictedIds now s →
    ∀ q ∈ s.compressed_memories, q.1 ∉ evictedIds now s →
      combined_score now p.2 ≤ combined_score now q.2 := by
  intro p hp hpe q hq hqe
  have hpair_p : (combined_score now p.2, p.1) ∈ ((s.compressed_memories.map
      (fun r => (combined_score now r.2, r.1))).mergeSort pairLe).take
        (s.compressed_memories.length - s.max_memory_size) := by
    unfold evictedIds at hpe
    rw [List.mem_map] at hpe
    obtain ⟨pr, hpr, hpr2⟩ := hpe
    have hpr3 : pr ∈ s.compressed_memories.map (fun r => (combined_score now r.2, r.1)) :=
      List.mem_mergeSort.mp (List.take_subset _ _ hpr)
    rw [List.mem_map] at hpr3
    obtain ⟨p', hp', hp'2⟩ := hpr3
    have hpp : p' = p :=
      assoc_key_unique hnd hp' hp ((congrArg Prod.snd hp'2).trans hpr2)
    subst hpp
    rw [hp'2]
    exact hpr
  have hpair_q : (combined_score now q.2, q.1) ∈ ((s.compressed_memories.map
      (fun r => (combined_score now r.2, r.1))).mergeSort pairLe).drop
        (s.compressed_memories.length - s.max_memory_size) := by
    have hmem : (combined_score now q.2, q.1) ∈ (s.compressed_memories.map
        (fun r => (combined_score now r.2, r.1))).mergeSort pairLe :=
      List.mem_mergeSort.mpr (List.mem_map_of_mem _ hq)
    rw [← List.take_append_drop (s.compressed_memories.length - s.max_memory_size)
      ((s.compressed_memories.map (fun r => (combined_score now r.2, r.1))).mergeSort pairLe)]
      at hmem
    rcases List.mem_append.mp hmem with hmem | hmem
    · exfalso
      apply hqe
      unfold evictedIds
      exact List.mem_map_of_mem Prod.snd hmem
    · exact hmem
  have hsort := @List.sorted_mergeSort _ pairLe pairLe_trans pairLe_total
    (s.compressed_memories.map (fun r => (combined_score now r.2, r.1)))
  have hpw : List.Pairwise (fun a b => pairLe a b = true)
      (((s.compressed_memories.map (fun r => (combined_score now r.2, r.1))).mergeSort
          pairLe).take (s.compressed_memories.length - s.max_memory_size)
        ++ ((s.compressed_memories.map (fun r => (combined_score now r.2, r.1))).mergeSort
          pairLe).drop (s.compressed_memories.length - s.max_memory_size)) := by
    rw [List.take_append_drop]
    exact hsort
  exact pairLe_fst_le ((List.pairwise_append.mp hpw).2.2 _ hpair_p _ hpair_q)

theorem cleanup_spec (now : ℚ) (s : MemoryCompressor)
    (hnd : (s.compressed_memories.map Prod.fst).Nodup)
    (hover : s.max_memory_size < s.compressed_memories.length) :
    (_cleanup_old_memories now s).compressed_memories
        = s.compressed_memories.filter (fun p => !(decide (p.1 ∈ evictedIds now s)))
    ∧ (_cleanup_old_memories now s).compressed_memories.length = s.max_memory_size
    ∧ (_cleanup_old_memories now s).total_original_size
        = s.total_original_size - ((s.compressed_memories.filter
            (fun p => decide (p.1 ∈ evictedIds now s))).map
            (fun p => (p.2.original_content.length : ℤ))).sum
    ∧ (_cleanup_old_memories now s).total_compressed_size
        = s.total_compressed_size - ((s.compressed_memories.filter
            (fun p => decide (p.1 ∈ evictedIds now s))).map
            (fun p => (p.2.compressed_content.length : ℤ))).sum
    ∧ (_cleanup_old_memories now s).max_memory_size = s.max_memory_size := by
  have hcl : _cleanup_old_memories now s = (evictedIds now s).foldl removeOne s := by
    unfold _cleanup_old_memories
    rw [if_neg (by omega)]
  have hfold := foldl_removeOne_spec (evictedIds now s) s hnd
  refine ⟨hcl ▸ hfold.1, ?_, hcl ▸ hfold.2.1, hcl ▸ hfold.2.2.1, hcl ▸ hfold.2.2.2⟩
  rw [hcl, hfold.1]
  have hpart := (List.filter_append_perm
    (fun p => decide (p.1 ∈ evictedIds now s)) s.compressed_memories).length_eq
  rw [List.length_append] at hpart
  have hin := filter_key_mem_length s.compressed_memories (evictedIds now s) hnd
    (evictedIds_nodup now s hnd) (evictedIds_sub_keys now s)
  have hk := evictedIds_length now s hover
  omega

theorem dictInsert_keys_nodup {k : Str} {v : CompressedMemory}
    {l : List (Str × CompressedMemory)} (hnd : (l.map Prod.fst).Nodup) :
    ((dictInsert k v l).map Prod.fst).Nodup := by
  unfold dictInsert
  split
  case isTrue h =>
    have hkeys : (l.map (fun p => if p.1 == k then (k, v) else p)).map Prod.fst
        = l.map Prod.fst := by
      rw [List.map_map]
      apply List.map_congr_left
      intro p _
      by_cases hk : p.1 = k
      · simp [hk]
      · simp [hk]
    rw [hkeys]
    exact hnd
  case isFalse h =>
    rw [List.map_append, List.nodup_append]
    refine ⟨hnd, by simp, ?_⟩
    intro a ha hb
    simp only [List.map_cons, List.map_nil, List.mem_singleton] at hb
    subst hb
    rw [List.mem_map] at ha
    obtain ⟨p, hp, hpk⟩ := ha
    exact h (List.any_eq_true.mpr ⟨p, hp, by rw [beq_iff_eq]; exact hpk⟩)

/-- C3: for every store with distinct ids and every insert that makes the
entry count exceed `max_size`, eviction runs and afterwards the store holds
exactly `max_size` entries; at eviction time every evicted entry's combined
score (`importance*0.7 + recency*0.3`, with recency
`max(0, 1 - (now - created_at)/7 days)`) is at most every surviving entry's
combined score; and the running original/compressed byte totals are
decremented by exactly the removed entries' original and compressed text
lengths. -/
theorem c3_theorem (s : MemoryCompressor) (content memory_type : Str) (context : Option Ctx)
    (now : ℚ) (memory_id : Str)
    (hnd : (s.compressed_memories.map Prod.fst).Nodup)
    (hover : s.max_memory_size
      < (insertStep (mkEntry content memory_type context now memory_id) s).compressed_memories.length) :
    (compress_memory content memory_type context now memory_id s).1.compressed_memories.length
        = s.max_memory_size
    ∧ (∀ p ∈ (insertStep (mkEntry content memory_type context now memory_id) s).compressed_memories,
        p ∉ (compress_memory content memory_type context now memory_id s).1.compressed_memories →
        ∀ q ∈ (compress_memory content memory_type context now memory_id s).1.compressed_memories,
          combined_score now p.2 ≤ combined_score now q.2)
    ∧ (compress_memory content memory_type context now memory_id s).1.total_original_size
        = (insertStep (mkEntry content memory_type context now memory_id) s).total_original_size
          - (((insertStep (mkEntry content memory_type context now memory_id)
                s).compressed_memories.filter
              (fun p => decide (p ∉
                (compress_memory content memory_type context now memory_id
                  s).1.compressed_memories))).map
              (fun p => (p.2.original_content.length : ℤ))).sum
    ∧ (compress_memory content memory_type context now memory_id s).1.total_compressed_size
        = (insertStep (mkEntry content memory_type context now memory_id) s).total_compressed_size
          - (((insertStep (mkEntry content memory_type context now memory_id)
                s).compressed_memories.filter
              (fun p => decide (p ∉
                (compress_memory content memory_type context now memory_id
                  s).1.compressed_memories))).map
              (fun p => (p.2.compressed_content.length : ℤ))).sum := by
  set e := mkEntry content memory_type context now memory_id with he
  set s1 := insertStep e s with hs1
  have hnd1 : (s1.compressed_memories.map Prod.fst).Nodup := dictInsert_keys_nodup hnd
  have hover1 : s1.max_memory_size < s1.compressed_memories.length := hover
  have hcm : (compress_memory content memory_type context now memory_id s).1
      = _cleanup_old_memories now s1 := by
    simp only [compress_memory]
    rw [← he, ← hs1, if_pos hover1]
  have hcs := cleanup_spec now s1 hnd1 hover1
  have hfc : ∀ g : Str × CompressedMemory → ℤ,
      ((s1.compressed_memories.filter (fun p => decide (p ∉
          (compress_memory content memory_type context now memory_id
            s).1.compressed_memories))).map g).sum
      = ((s1.compressed_memories.filter
          (fun p => decide (p.1 ∈ evictedIds now s1))).map g).sum := by
    intro g
    have hAB : (s1.compressed_memories.filter (fun p => decide (p ∉
          (compress_memory content memory_type context now memory_id
            s).1.compressed_memories)))
        = s1.compressed_memories.filter (fun p => decide (p.1 ∈ evictedIds now s1)) := by
      apply List.filter_congr
      intro p hp
      rw [hcm, hcs.1]
      by_cases hE : p.1 ∈ evictedIds now s1
      · simp [List.mem_filter, hE, hp]
      · simp [List.mem_filter, hE, hp]
    rw [hAB]
  refine ⟨?_, ?_, ?_, ?_⟩
  · rw [hcm]
    exact hcs.2.1
  · intro p hp hpnot q hq
    have hpE : p.1 ∈ evictedIds now s1 := by
      by_contra hx
      apply hpnot
      rw [hcm, hcs.1, List.mem_filter]
      exact ⟨hp, by simp [hx]⟩
    rw [hcm, hcs.1] at hq
    have hq2 := List.mem_filter.mp hq
    have hqE : q.1 ∉ evictedIds now s1 := by
      have hb := hq2.2
      simpa using hb
    exact cleanup_dominance now s1 hnd1 p hp hpE q hq2.1 hqE
  · rw [hfc, hcm, hcs.2.2.1]
  · rw [hfc, hcm, hcs.2.2.2.1]

/-- Witness for C3: inserting one entry into an empty store whose capacity is
zero triggers eviction down to exactly zero entries. -/
theorem c3_witness :
    (compress_memory (str "x") (str "generic") none 0 (str "id1")
        storeC).1.compressed_memories.length = storeC.max_memory_size :=
  (c3_theorem storeC (str "x") (str "generic") none 0 (str "id1") (by decide) (by decide)).1

/-! ## Claim C9 -/

/-- C9, counterexample: the summary `sum_b` retrievable from `storeB` before a
reset is no longer retrievable after the reset — resetting replaces the whole
engine, summaries included. -/
theorem c9_counterexample :
    get_summary storeB (str "sum_b") = some summB
    ∧ get_summary (reset_memory_compression storeB) (str "sum_b") = none :=
  ⟨rfl, rfl⟩

/-- C9 (amended): reset clears the entries, the recent ring and the running
totals, and also clears the stored summaries: after a reset no memory and no
summary is retrievable by any id. -/
theorem c9_theorem (s : MemoryCompressor) :
    (reset_memory_compression s).compressed_memories = []
    ∧ (reset_memory_compression s).recent_memories = []
    ∧ (reset_memory_compression s).total_original_size = 0
    ∧ (reset_memory_compression s).total_compressed_size = 0
    ∧ (reset_memory_compression s).compression_count = 0
    ∧ (reset_memory_compression s).memory_summaries = []
    ∧ (∀ memory_id, get_memory (reset_memory_compression s) memory_id = none)
    ∧ (∀ summary_id, get_summary (reset_memory_compression s) summary_id = none) :=
  ⟨rfl, rfl, rfl, rfl, rfl, rfl, fun _ => rfl, fun _ => rfl⟩
